import Mathlib

/-!
Verification development for `src/transformer/attention.py` (class
`AdpHeadedAttention`, a gated multi-head attention layer).

Embedding conventions:
* floating-point tensors are modelled over `ℝ`; a tensor of shape
  `(batch, time, feature)` is a function `Fin batch → Fin time → Fin feat → ℝ`;
* the two `random.random()*(1e-10)` jitter draws of `forward_qkv` are modelled
  as explicit real parameters `jq`, `jk` (the function `jitter` maps the
  `random.random()` result `r ∈ [0,1)` to the added value `r * 1e-10`);
* dropout (`self.dropout(self.attn)`) is modelled as an explicit elementwise
  multiplier `drop`; disabled dropout (eval mode) is the constant-one
  multiplier `noDrop`;
* `torch.finfo(scores.dtype).min` is modelled by the constant `finfoMin`
  (the float32 value; none of the statements depend on its magnitude);
* the layer object is the structure `AdpHeadedAttention h dk`; `n_feat` is
  `h * dk`, and the mutable field `self.attn` is an `Option` of a dependent
  tuple recording the shape of the last stored attention map.
-/

namespace Adp

noncomputable section

/-- Affine map `y i = (W x + b) i`, the embedding of `nn.Linear` applied to a
feature vector (`torch.nn.functional.linear`: `y = x Wᵀ + b`). -/
def linApply {m n : ℕ} (W : Fin m → Fin n → ℝ) (b : Fin m → ℝ)
    (x : Fin n → ℝ) (i : Fin m) : ℝ :=
  (∑ j, W i j * x j) + b i

/-- Per-row L2 norm of a weight matrix:
`torch.linalg.norm(weight, ord=2, dim=1)`. -/
def rowNorm {m n : ℕ} (W : Fin m → Fin n → ℝ) (i : Fin m) : ℝ :=
  Real.sqrt (∑ j, (W i j) ^ 2)

/-- The jitter added to the normalisation denominators:
`random.random() * (1e-10)` where `r` is the `random.random()` result. -/
def jitter (r : ℝ) : ℝ := r * 1e-10

/-- L-infinity norm of a vector: `torch.linalg.norm(v, ord=float('inf'))`
(maximum of the absolute values; `0` for an empty vector). -/
def linfNorm {n : ℕ} (v : Fin n → ℝ) : ℝ :=
  Finset.univ.fold max 0 (fun j => |v j|)

/-- L1 norm of a vector: `torch.linalg.norm(v, ord=1, dim=0)`. -/
def l1Norm {n : ℕ} (v : Fin n → ℝ) : ℝ := ∑ j, |v j|

/-- The hard-threshold gate mask of `forward_qkv`:
`torch.gt(torch.abs(a_q), ones * (0.001 * a_q_max)).float()`. -/
def gateMask {n : ℕ} (v : Fin n → ℝ) (j : Fin n) : ℝ :=
  if |v j| > 0.001 * linfNorm v then 1 else 0

/-- The effective sparse gate `a_q_f = a_q * a_q_mask` of `forward_qkv`. -/
def aqfV {n : ℕ} (v : Fin n → ℝ) (j : Fin n) : ℝ := v j * gateMask v j

/-- The auxiliary value `l_qk = 1.0 * torch.linalg.norm(a_q_f, ord=1, dim=0)`
of `forward_qkv`. -/
def lqkV {n : ℕ} (v : Fin n → ℝ) : ℝ := 1.0 * l1Norm (aqfV v)

/-- `torch.softmax(s, dim=-1)` on one row. -/
def softmax {n : ℕ} (s : Fin n → ℝ) (j : Fin n) : ℝ :=
  Real.exp (s j) / ∑ i, Real.exp (s i)

/-- `torch.finfo(torch.float32).min`, the fill value used for masked scores. -/
def finfoMin : ℝ := -3.4028234663852886e38

/-- The layer state of `AdpHeadedAttention` with `n_head = h` and
`d_k = dk` (so `n_feat = h * dk`): the four `nn.Linear` weights and biases,
the learnable gate `a_q`, the stored diagnostic attention map `attn`
(initially `None`), and the dropout rate. -/
structure AdpHeadedAttention (h dk : ℕ) where
  linear_q_w : Fin (h * dk) → Fin (h * dk) → ℝ
  linear_q_b : Fin (h * dk) → ℝ
  linear_k_w : Fin (h * dk) → Fin (h * dk) → ℝ
  linear_k_b : Fin (h * dk) → ℝ
  linear_v_w : Fin (h * dk) → Fin (h * dk) → ℝ
  linear_v_b : Fin (h * dk) → ℝ
  linear_out_w : Fin (h * dk) → Fin (h * dk) → ℝ
  linear_out_b : Fin (h * dk) → ℝ
  a_q : Fin (h * dk) → ℝ
  attn : Option ((batch : ℕ) × (t1 : ℕ) × (t2 : ℕ) ×
    (Fin batch → Fin h → Fin t1 → Fin t2 → ℝ))
  dropout_rate : ℝ

/-- The constructor `AdpHeadedAttention.__init__(n_head, n_feat, dropout_rate)`.
It `assert`s `n_feat % n_head == 0` (modelled as returning `none` on
violation), stores `d_k = n_feat // n_head` and `h = n_head`, allocates the
four `nn.Linear` layers (their freshly initialised weights and biases are
taken as arguments `wq bq wk bk wv bv wo bo`, since the random initialisation
scheme is outside the spec's scope), sets `attn = None` and `a_q = ones`. -/
def mkAdpHeadedAttention (n_head n_feat : ℕ) (dropout_rate : ℝ)
    (wq : Fin n_feat → Fin n_feat → ℝ) (bq : Fin n_feat → ℝ)
    (wk : Fin n_feat → Fin n_feat → ℝ) (bk : Fin n_feat → ℝ)
    (wv : Fin n_feat → Fin n_feat → ℝ) (bv : Fin n_feat → ℝ)
    (wo : Fin n_feat → Fin n_feat → ℝ) (bo : Fin n_feat → ℝ) :
    Option ((dk : ℕ) × AdpHeadedAttention n_head dk) :=
  if hmod : n_feat % n_head = 0 then
    some ⟨n_feat / n_head,
      let e : n_head * (n_feat / n_head) = n_feat :=
        Nat.mul_div_cancel' (Nat.dvd_of_mod_eq_zero hmod)
      { linear_q_w := fun i j => wq (Fin.cast e i) (Fin.cast e j)
        linear_q_b := fun i => bq (Fin.cast e i)
        linear_k_w := fun i j => wk (Fin.cast e i) (Fin.cast e j)
        linear_k_b := fun i => bk (Fin.cast e i)
        linear_v_w := fun i j => wv (Fin.cast e i) (Fin.cast e j)
        linear_v_b := fun i => bv (Fin.cast e i)
        linear_out_w := fun i j => wo (Fin.cast e i) (Fin.cast e j)
        linear_out_b := fun i => bo (Fin.cast e i)
        a_q := fun _ => 1
        attn := none
        dropout_rate := dropout_rate }⟩
  else none

/-- Flat feature index of head `hd`, sub-index `i`: the `view`/`transpose`
reshape between `(batch, time, h*d_k)` and `(batch, h, time, d_k)` layouts
(row-major, so feature `hd * d_k + i`). -/
def flatIdx {h dk : ℕ} (hd : Fin h) (i : Fin dk) : Fin (h * dk) :=
  ⟨hd.val * dk + i.val, by
    calc hd.val * dk + i.val < hd.val * dk + dk := Nat.add_lt_add_left i.isLt _
      _ = (hd.val + 1) * dk := (Nat.succ_mul _ _).symm
      _ ≤ h * dk := Nat.mul_le_mul_right dk hd.isLt⟩

/-- Head component of a flat feature index (inverse of `flatIdx`). -/
def headIdx {h dk : ℕ} (f : Fin (h * dk)) : Fin h :=
  ⟨f.val / dk, Nat.div_lt_of_lt_mul (Nat.mul_comm h dk ▸ f.isLt)⟩

/-- Sub-index component of a flat feature index (inverse of `flatIdx`). -/
def subIdx {h dk : ℕ} (f : Fin (h * dk)) : Fin dk :=
  ⟨f.val % dk, by
    have hdk : 0 < dk := by
      rcases Nat.eq_zero_or_pos dk with h0 | hpos
      · exact absurd f.isLt (by simp [h0])
      · exact hpos
    exact Nat.mod_lt _ hdk⟩

theorem headIdx_flatIdx {h dk : ℕ} (hd : Fin h) (i : Fin dk) :
    headIdx (flatIdx hd i) = hd := by
  have hdk : 0 < dk := i.pos
  apply Fin.ext
  simp only [headIdx, flatIdx]
  rw [Nat.mul_comm hd.val dk, Nat.mul_add_div hdk, Nat.div_eq_of_lt i.isLt]
  exact Nat.add_zero _

theorem subIdx_flatIdx {h dk : ℕ} (hd : Fin h) (i : Fin dk) :
    subIdx (flatIdx hd i) = i := by
  apply Fin.ext
  simp only [subIdx, flatIdx]
  rw [Nat.mul_comm hd.val dk, Nat.mul_add_mod, Nat.mod_eq_of_lt i.isLt]

theorem flatIdx_headIdx_subIdx {h dk : ℕ} (f : Fin (h * dk)) :
    flatIdx (headIdx f) (subIdx f) = f := by
  apply Fin.ext
  simp only [flatIdx, headIdx, subIdx]
  rw [Nat.mul_comm]
  exact Nat.div_add_mod f.val dk

/- Helper lemmas about `linfNorm` (a `Finset.fold max 0`). -/

theorem linfNorm_nonneg {n : ℕ} (v : Fin n → ℝ) : 0 ≤ linfNorm v :=
  (Finset.le_fold_max (0 : ℝ)).2 (Or.inl le_rfl)

theorem abs_le_linfNorm {n : ℕ} (v : Fin n → ℝ) (j : Fin n) :
    |v j| ≤ linfNorm v :=
  (Finset.le_fold_max |v j|).2 (Or.inr ⟨j, Finset.mem_univ j, le_rfl⟩)

theorem fold_max_zero_eq_zero_or_mem {α : Type} (s : Finset α) (f : α → ℝ) :
    s.fold max 0 f = 0 ∨ ∃ a ∈ s, s.fold max 0 f = f a := by
  induction s using Finset.cons_induction with
  | empty => exact Or.inl rfl
  | cons a s ha ih =>
      rw [Finset.fold_cons]
      rcases le_total (f a) (s.fold max 0 f) with hle | hle
      · rw [max_eq_right hle]
        rcases ih with h0 | ⟨b, hb, hfb⟩
        · exact Or.inl h0
        · exact Or.inr ⟨b, Finset.mem_cons_of_mem hb, hfb⟩
      · rw [max_eq_left hle]
        exact Or.inr ⟨a, Finset.mem_cons_self a _, rfl⟩

theorem linfNorm_attained {n : ℕ} (v : Fin n → ℝ) :
    linfNorm v = 0 ∨ ∃ j, linfNorm v = |v j| := by
  rcases fold_max_zero_eq_zero_or_mem (Finset.univ : Finset (Fin n))
      (fun j => |v j|) with h0 | ⟨j, _, hj⟩
  · exact Or.inl h0
  · exact Or.inr ⟨j, hj⟩

/-! ### The forward pass

`forward_qkv`, the score computation of `forward`, and `forward_attention`,
translated step by step. Throughout, `L` is the layer, `query` has shape
`(batch, t1, h*dk)`, `key` and `value` have shape `(batch, t2, h*dk)`,
`jq`/`jk` are the two per-call jitter values and `drop` is the dropout
multiplier. -/

/-- `norm_qq = torch.linalg.norm(linear_q.weight, ord=2, dim=1) + jq`:
the per-row normalisation denominator for the query side. -/
def normQQ {h dk : ℕ} (L : AdpHeadedAttention h dk) (jq : ℝ)
    (i : Fin (h * dk)) : ℝ :=
  rowNorm L.linear_q_w i + jq

/-- `norm_kk = torch.linalg.norm(linear_k.weight, ord=2, dim=1) + jk`. -/
def normKK {h dk : ℕ} (L : AdpHeadedAttention h dk) (jk : ℝ)
    (i : Fin (h * dk)) : ℝ :=
  rowNorm L.linear_k_w i + jk

/-- The flat (pre-reshape) gated, normalised query:
`q = ((linear_q(query)) * a_q_f) / norm_qq`, shape `(batch, t1, h*dk)`. -/
def qFlat {h dk batch t1 : ℕ} (L : AdpHeadedAttention h dk)
    (query : Fin batch → Fin t1 → Fin (h * dk) → ℝ) (jq : ℝ)
    (b : Fin batch) (t : Fin t1) (i : Fin (h * dk)) : ℝ :=
  linApply L.linear_q_w L.linear_q_b (query b t) i * aqfV L.a_q i
    / normQQ L jq i

/-- The flat normalised key: `k = linear_k(key) / norm_kk`. -/
def kFlat {h dk batch t2 : ℕ} (L : AdpHeadedAttention h dk)
    (key : Fin batch → Fin t2 → Fin (h * dk) → ℝ) (jk : ℝ)
    (b : Fin batch) (t : Fin t2) (i : Fin (h * dk)) : ℝ :=
  linApply L.linear_k_w L.linear_k_b (key b t) i / normKK L jk i

/-- The flat transformed value: `linear_v(value)`. -/
def vFlat {h dk batch t2 : ℕ} (L : AdpHeadedAttention h dk)
    (value : Fin batch → Fin t2 → Fin (h * dk) → ℝ)
    (b : Fin batch) (t : Fin t2) (i : Fin (h * dk)) : ℝ :=
  linApply L.linear_v_w L.linear_v_b (value b t) i

/-- The transformed query in head-major layout `(batch, head, time1, d_k)`:
`q.view(n_batch, -1, h, d_k).transpose(1, 2)`. -/
def qHead {h dk batch t1 : ℕ} (L : AdpHeadedAttention h dk)
    (query : Fin batch → Fin t1 → Fin (h * dk) → ℝ) (jq : ℝ)
    (b : Fin batch) (hd : Fin h) (t : Fin t1) (i : Fin dk) : ℝ :=
  qFlat L query jq b t (flatIdx hd i)

/-- The transformed key in head-major layout `(batch, head, time2, d_k)`. -/
def kHead {h dk batch t2 : ℕ} (L : AdpHeadedAttention h dk)
    (key : Fin batch → Fin t2 → Fin (h * dk) → ℝ) (jk : ℝ)
    (b : Fin batch) (hd : Fin h) (t : Fin t2) (i : Fin dk) : ℝ :=
  kFlat L key jk b t (flatIdx hd i)

/-- The transformed value in head-major layout `(batch, head, time2, d_k)`:
`linear_v(value).view(n_batch, -1, h, d_k).transpose(1, 2)`. -/
def vHead {h dk batch t2 : ℕ} (L : AdpHeadedAttention h dk)
    (value : Fin batch → Fin t2 → Fin (h * dk) → ℝ)
    (b : Fin batch) (hd : Fin h) (t : Fin t2) (i : Fin dk) : ℝ :=
  vFlat L value b t (flatIdx hd i)

/-- `forward_qkv(query, key, value)`: returns
`(q, k, v, l_qk, a_q_f)` with `q`, `k`, `v` in `(batch, head, time, d_k)`
layout, `l_qk = 1.0 * torch.linalg.norm(a_q_f, ord=1, dim=0)` and the
effective gate `a_q_f`. -/
def forward_qkv {h dk batch t1 t2 : ℕ} (L : AdpHeadedAttention h dk)
    (query : Fin batch → Fin t1 → Fin (h * dk) → ℝ)
    (key : Fin batch → Fin t2 → Fin (h * dk) → ℝ)
    (value : Fin batch → Fin t2 → Fin (h * dk) → ℝ) (jq jk : ℝ) :
    (Fin batch → Fin h → Fin t1 → Fin dk → ℝ) ×
    (Fin batch → Fin h → Fin t2 → Fin dk → ℝ) ×
    (Fin batch → Fin h → Fin t2 → Fin dk → ℝ) × ℝ × (Fin (h * dk) → ℝ) :=
  (qHead L query jq, kHead L key jk, vHead L value, lqkV L.a_q, aqfV L.a_q)

/-- `scores = torch.matmul(q, k.transpose(-2, -1)) / math.sqrt(self.d_k)`,
shape `(batch, head, time1, time2)`. -/
def scoresOf {h dk batch t1 t2 : ℕ} (L : AdpHeadedAttention h dk)
    (query : Fin batch → Fin t1 → Fin (h * dk) → ℝ)
    (key : Fin batch → Fin t2 → Fin (h * dk) → ℝ) (jq jk : ℝ)
    (b : Fin batch) (hd : Fin h) (u : Fin t1) (w : Fin t2) : ℝ :=
  (∑ i, qHead L query jq b hd u i * kHead L key jk b hd w i)
    / Real.sqrt (dk : ℝ)

/-- The attention-weight tensor computed (and stored as `self.attn`) by
`forward_attention`: with a mask, scores are first overwritten with
`finfoMin` at masked positions (`mask == 0`), softmax is taken over the last
axis, and masked positions are then re-zeroed via `masked_fill(mask, 0.0)`;
without a mask it is a plain softmax. -/
def attnOf {h dk batch t1 t2 : ℕ} (L : AdpHeadedAttention h dk)
    (query : Fin batch → Fin t1 → Fin (h * dk) → ℝ)
    (key : Fin batch → Fin t2 → Fin (h * dk) → ℝ)
    (mask : Option (Fin batch → Fin t1 → Fin t2 → ℕ)) (jq jk : ℝ)
    (b : Fin batch) (hd : Fin h) (u : Fin t1) (w : Fin t2) : ℝ :=
  match mask with
  | some m =>
      if m b u w = 0 then 0
      else
        softmax
          (fun w2 => if m b u w2 = 0 then finfoMin
            else scoresOf L query key jq jk b hd u w2) w
  | none => softmax (fun w2 => scoresOf L query key jq jk b hd u w2) w

/-- The output of `forward_attention`: `p_attn = dropout(attn)` (the dropout
multiplier `drop` is applied elementwise), `x = matmul(p_attn, value)`
transposed and flattened back to `(batch, time1, h*dk)`, then `linear_out`. -/
def outputOf {h dk batch t1 t2 : ℕ} (L : AdpHeadedAttention h dk)
    (query : Fin batch → Fin t1 → Fin (h * dk) → ℝ)
    (key : Fin batch → Fin t2 → Fin (h * dk) → ℝ)
    (value : Fin batch → Fin t2 → Fin (h * dk) → ℝ)
    (mask : Option (Fin batch → Fin t1 → Fin t2 → ℕ)) (jq jk : ℝ)
    (drop : Fin batch → Fin h → Fin t1 → Fin t2 → ℝ)
    (b : Fin batch) (u : Fin t1) (o : Fin (h * dk)) : ℝ :=
  linApply L.linear_out_w L.linear_out_b
    (fun f => ∑ w,
      drop b (headIdx f) u w * attnOf L query key mask jq jk b (headIdx f) u w
        * vHead L value b (headIdx f) w (subIdx f)) o

/-- The identity dropout multiplier: dropout disabled (eval mode). -/
def noDrop {batch h t1 t2 : ℕ} :
    Fin batch → Fin h → Fin t1 → Fin t2 → ℝ :=
  fun _ _ _ _ => 1

/-- `forward(query, key, value, mask)`: returns
`(forward_attention(v, scores, mask), l_qk, a_q_f)`. -/
def forward {h dk batch t1 t2 : ℕ} (L : AdpHeadedAttention h dk)
    (query : Fin batch → Fin t1 → Fin (h * dk) → ℝ)
    (key : Fin batch → Fin t2 → Fin (h * dk) → ℝ)
    (value : Fin batch → Fin t2 → Fin (h * dk) → ℝ)
    (mask : Option (Fin batch → Fin t1 → Fin t2 → ℕ)) (jq jk : ℝ)
    (drop : Fin batch → Fin h → Fin t1 → Fin t2 → ℝ) :
    (Fin batch → Fin t1 → Fin (h * dk) → ℝ) × ℝ × (Fin (h * dk) → ℝ) :=
  (outputOf L query key value mask jq jk drop, lqkV L.a_q, aqfV L.a_q)

/-- `forward` with its state effect: the call assigns `self.attn` (the
computed pre-dropout attention map) and returns the output triple. -/
def forwardState {h dk batch t1 t2 : ℕ} (L : AdpHeadedAttention h dk)
    (query : Fin batch → Fin t1 → Fin (h * dk) → ℝ)
    (key : Fin batch → Fin t2 → Fin (h * dk) → ℝ)
    (value : Fin batch → Fin t2 → Fin (h * dk) → ℝ)
    (mask : Option (Fin batch → Fin t1 → Fin t2 → ℕ)) (jq jk : ℝ)
    (drop : Fin batch → Fin h → Fin t1 → Fin t2 → ℝ) :
    AdpHeadedAttention h dk ×
    ((Fin batch → Fin t1 → Fin (h * dk) → ℝ) × ℝ × (Fin (h * dk) → ℝ)) :=
  ({ L with attn := some ⟨batch, t1, t2, attnOf L query key mask jq jk⟩ },
    forward L query key value mask jq jk drop)

/-! ### Further helper lemmas -/

theorem linfNorm_le {n : ℕ} (v : Fin n → ℝ) (c : ℝ) (hc : 0 ≤ c)
    (hv : ∀ j, |v j| ≤ c) : linfNorm v ≤ c :=
  (Finset.fold_max_le c).2 ⟨hc, fun j _ => hv j⟩

theorem linfNorm_eq_of {n : ℕ} (v : Fin n → ℝ) (j : Fin n)
    (hj : ∀ i, |v i| ≤ |v j|) : linfNorm v = |v j| :=
  le_antisymm (linfNorm_le v |v j| (abs_nonneg _) hj) (abs_le_linfNorm v j)

/-! ### Claims about the gate (C2, C3, C10) -/

/-- C2: the effective gate returned by `forward_qkv` is `a_q_f = a_q * mask`
where the mask is the strict comparison `|a_q[j]| > 0.001 * max |a_q|`:
a surviving entry keeps its exact value `a_q[j]`, a non-surviving entry is
mapped to exactly `0`; in particular an entry whose magnitude is exactly
`1e-6` times the maximum is mapped to exactly `0`. -/
theorem C2_effective_gate {h dk batch t1 t2 : ℕ} (L : AdpHeadedAttention h dk)
    (query : Fin batch → Fin t1 → Fin (h * dk) → ℝ)
    (key : Fin batch → Fin t2 → Fin (h * dk) → ℝ)
    (value : Fin batch → Fin t2 → Fin (h * dk) → ℝ) (jq jk : ℝ)
    (j : Fin (h * dk)) :
    (forward_qkv L query key value jq jk).2.2.2.2 j = aqfV L.a_q j ∧
    (|L.a_q j| > 0.001 * linfNorm L.a_q → aqfV L.a_q j = L.a_q j) ∧
    (¬ |L.a_q j| > 0.001 * linfNorm L.a_q → aqfV L.a_q j = 0) ∧
    (|L.a_q j| = 1e-6 * linfNorm L.a_q → aqfV L.a_q j = 0) := by
  refine ⟨rfl, fun hgt => ?_, fun hle => ?_, fun heq => ?_⟩
  · simp [aqfV, gateMask, hgt]
  · simp [aqfV, gateMask, hle]
  · have hM := linfNorm_nonneg L.a_q
    have hnot : ¬ |L.a_q j| > 0.001 * linfNorm L.a_q := by
      rw [heq]
      push_neg
      nlinarith
    simp [aqfV, gateMask, hnot]

/-- Concrete layer for the C2 witness: `feature = 2`, `a_q = (2, 2e-6)`. -/
def C2L : AdpHeadedAttention 1 2 where
  linear_q_w := fun _ _ => 0
  linear_q_b := fun _ => 0
  linear_k_w := fun _ _ => 0
  linear_k_b := fun _ => 0
  linear_v_w := fun _ _ => 0
  linear_v_b := fun _ => 0
  linear_out_w := fun _ _ => 0
  linear_out_b := fun _ => 0
  a_q := fun j => if j.val = 0 then 2 else 2e-6
  attn := none
  dropout_rate := 0

theorem C2_effective_gate_witness :
    |C2L.a_q 1| = 1e-6 * linfNorm C2L.a_q ∧ aqfV C2L.a_q 1 = 0 := by
  have hM : linfNorm C2L.a_q = 2 := by
    have h0 : |C2L.a_q 0| = 2 := by simp [C2L]
    have := linfNorm_eq_of C2L.a_q 0 (by
      intro i
      fin_cases i <;> simp [C2L] <;> exact abs_le.mpr (by norm_num))
    rw [this, h0]
  have hyp : |C2L.a_q 1| = 1e-6 * linfNorm C2L.a_q := by
    rw [hM]
    simp [C2L]
    norm_num
  exact ⟨hyp,
    (@C2_effective_gate 1 2 1 1 1 C2L (fun _ _ _ => 0) (fun _ _ _ => 0)
      (fun _ _ _ => 0) 0 0 1).2.2.2 hyp⟩

/-- C3: the `l_qk` returned by `forward` is the L1 norm of the effective
gate `a_q_f` (a single real scalar in this embedding), which equals the sum
of the absolute values of the surviving (not-zeroed) gate entries. -/
theorem C3_lqk_l1 {h dk batch t1 t2 : ℕ} (L : AdpHeadedAttention h dk)
    (query : Fin batch → Fin t1 → Fin (h * dk) → ℝ)
    (key : Fin batch → Fin t2 → Fin (h * dk) → ℝ)
    (value : Fin batch → Fin t2 → Fin (h * dk) → ℝ)
    (mask : Option (Fin batch → Fin t1 → Fin t2 → ℕ)) (jq jk : ℝ)
    (drop : Fin batch → Fin h → Fin t1 → Fin t2 → ℝ) :
    (forward L query key value mask jq jk drop).2.1 = l1Norm (aqfV L.a_q) ∧
    (forward L query key value mask jq jk drop).2.1 =
      ∑ j ∈ Finset.univ.filter
        (fun j => |L.a_q j| > 0.001 * linfNorm L.a_q), |L.a_q j| := by
  have h1 : (forward L query key value mask jq jk drop).2.1 = lqkV L.a_q := rfl
  have h10 : (1.0 : ℝ) = 1 := by norm_num
  constructor
  · rw [h1]
    unfold lqkV
    rw [h10, one_mul]
  · rw [h1]
    unfold lqkV l1Norm
    rw [h10, one_mul, Finset.sum_filter]
    apply Finset.sum_congr rfl
    intro j _
    by_cases hc : |L.a_q j| > 0.001 * linfNorm L.a_q
    · simp [aqfV, gateMask, hc]
    · simp [aqfV, gateMask, hc]

/-- C10: since the threshold comparison is strict, every entry of maximal
magnitude survives the gate unchanged whenever `a_q` has a nonzero entry,
so `a_q_f` is nonzero and `l_qk > 0`; and if `a_q` is all-zero then every
entry is gated to `0` and `l_qk = 0`. -/
theorem C10_gate_survival {n : ℕ} (a_q : Fin n → ℝ) :
    ((∃ j, a_q j ≠ 0) →
      (∀ j, |a_q j| = linfNorm a_q → aqfV a_q j = a_q j) ∧
      (∃ j, aqfV a_q j ≠ 0) ∧ 0 < lqkV a_q) ∧
    (a_q = (fun _ => 0) → (∀ j, aqfV a_q j = 0) ∧ lqkV a_q = 0) := by
  constructor
  · rintro ⟨j0, hj0⟩
    have hMpos : 0 < linfNorm a_q :=
      lt_of_lt_of_le (abs_pos.2 hj0) (abs_le_linfNorm a_q j0)
    have hmax : ∀ j, |a_q j| = linfNorm a_q → aqfV a_q j = a_q j := by
      intro j hj
      have hgt : |a_q j| > 0.001 * linfNorm a_q := by
        rw [hj]
        linarith
      simp [aqfV, gateMask, hgt]
    have hattain : ∃ j, linfNorm a_q = |a_q j| := by
      rcases linfNorm_attained a_q with h0 | hj
      · exact absurd h0 (ne_of_gt hMpos)
      · exact hj
    obtain ⟨j, hj⟩ := hattain
    have hjne : a_q j ≠ 0 := by
      intro hz
      rw [hz, abs_zero] at hj
      exact (ne_of_gt hMpos) hj
    refine ⟨hmax, ⟨j, ?_⟩, ?_⟩
    · rw [hmax j hj.symm]
      exact hjne
    · have h1 : aqfV a_q j = a_q j := hmax j hj.symm
      have hsum : |aqfV a_q j| ≤ ∑ i, |aqfV a_q i| :=
        Finset.single_le_sum (fun i _ => abs_nonneg (aqfV a_q i))
          (Finset.mem_univ j)
      have h2 : |aqfV a_q j| = linfNorm a_q := by rw [h1, ← hj]
      unfold lqkV l1Norm
      rw [show (1.0 : ℝ) = 1 from by norm_num, one_mul]
      rw [h2] at hsum
      linarith
  · intro hz
    subst hz
    constructor
    · intro j
      simp [aqfV]
    · simp [lqkV, l1Norm, aqfV]

theorem C10_gate_survival_witness :
    (∃ j : Fin 1, (fun _ : Fin 1 => (1 : ℝ)) j ≠ 0) ∧
    0 < lqkV (fun _ : Fin 1 => (1 : ℝ)) ∧
    lqkV (fun _ : Fin 1 => (0 : ℝ)) = 0 := by
  have he : ∃ j : Fin 1, (fun _ : Fin 1 => (1 : ℝ)) j ≠ 0 := ⟨0, one_ne_zero⟩
  exact ⟨he, ((C10_gate_survival (fun _ : Fin 1 => (1 : ℝ))).1 he).2.2,
    ((C10_gate_survival (fun _ : Fin 1 => (0 : ℝ))).2 rfl).2⟩

/-! ### Claim about construction (C4) -/

/-- C4: construction asserts `n_feat % n_head == 0` and nothing else
(success is exactly equivalent to the divisibility); `feature=5, n_head=2`
fails; on success the stored `d_k` is `n_feat / n_head`, `a_q` is all ones,
`attn` is `None` and the dropout rate is stored unchanged. -/
theorem C4_construction {n_head n_feat : ℕ} (_hh : 0 < n_head)
    (_hf : 0 < n_feat) (dr : ℝ)
    (wq : Fin n_feat → Fin n_feat → ℝ) (bq : Fin n_feat → ℝ)
    (wk : Fin n_feat → Fin n_feat → ℝ) (bk : Fin n_feat → ℝ)
    (wv : Fin n_feat → Fin n_feat → ℝ) (bv : Fin n_feat → ℝ)
    (wo : Fin n_feat → Fin n_feat → ℝ) (bo : Fin n_feat → ℝ) :
    mkAdpHeadedAttention 2 5 dr (fun _ _ => 0) (fun _ => 0) (fun _ _ => 0)
      (fun _ => 0) (fun _ _ => 0) (fun _ => 0) (fun _ _ => 0)
      (fun _ => 0) = none ∧
    ((mkAdpHeadedAttention n_head n_feat dr wq bq wk bk wv bv wo bo).isSome
      ↔ n_feat % n_head = 0) ∧
    (∀ X : (dk : ℕ) × AdpHeadedAttention n_head dk,
      mkAdpHeadedAttention n_head n_feat dr wq bq wk bk wv bv wo bo = some X →
      X.fst = n_feat / n_head ∧ X.snd.a_q = (fun _ => 1) ∧
      X.snd.attn = none ∧ X.snd.dropout_rate = dr) := by
  refine ⟨?_, ?_, ?_⟩
  · simp [mkAdpHeadedAttention]
  · by_cases hmod : n_feat % n_head = 0 <;>
      simp [mkAdpHeadedAttention, hmod]
  · intro X hX
    by_cases hmod : n_feat % n_head = 0
    · unfold mkAdpHeadedAttention at hX
      rw [dif_pos hmod] at hX
      injection hX with hX2
      subst hX2
      exact ⟨rfl, rfl, rfl, rfl⟩
    · unfold mkAdpHeadedAttention at hX
      rw [dif_neg hmod] at hX
      exact Option.noConfusion hX

theorem C4_construction_witness :
    0 < 2 ∧ 0 < 4 ∧
    (mkAdpHeadedAttention 2 4 (0 : ℝ) (fun _ _ => 0) (fun _ => 0)
      (fun _ _ => 0) (fun _ => 0) (fun _ _ => 0) (fun _ => 0)
      (fun _ _ => 0) (fun _ => 0)).isSome := by
  refine ⟨by norm_num, by norm_num, ?_⟩
  exact ((@C4_construction 2 4 (by norm_num) (by norm_num) 0 (fun _ _ => 0)
    (fun _ => 0) (fun _ _ => 0) (fun _ => 0) (fun _ _ => 0) (fun _ => 0)
    (fun _ _ => 0) (fun _ => 0)).2.1).mpr (by norm_num)

/-! ### Claim about the score formula (C5) -/

/-- The spec's formula for the transformed query (spec §4.1 step A): affine
transform `W_q·x + b_q`, elementwise gate by `a_q_f`, division by the row
norm of `W_q` plus the jitter, head-major reshape via `flatIdx`. -/
def specQ {h dk batch t1 : ℕ} (L : AdpHeadedAttention h dk)
    (query : Fin batch → Fin t1 → Fin (h * dk) → ℝ) (jq : ℝ)
    (b : Fin batch) (hd : Fin h) (u : Fin t1) (i : Fin dk) : ℝ :=
  ((∑ j, L.linear_q_w (flatIdx hd i) j * query b u j)
      + L.linear_q_b (flatIdx hd i)) * aqfV L.a_q (flatIdx hd i)
    / (rowNorm L.linear_q_w (flatIdx hd i) + jq)

/-- The spec's formula for the transformed key: affine transform `W_k·x + b_k`
divided by the row norm of `W_k` plus the jitter, head-major reshape. -/
def specK {h dk batch t2 : ℕ} (L : AdpHeadedAttention h dk)
    (key : Fin batch → Fin t2 → Fin (h * dk) → ℝ) (jk : ℝ)
    (b : Fin batch) (hd : Fin h) (w : Fin t2) (i : Fin dk) : ℝ :=
  ((∑ j, L.linear_k_w (flatIdx hd i) j * key b w j)
      + L.linear_k_b (flatIdx hd i))
    / (rowNorm L.linear_k_w (flatIdx hd i) + jk)

/-- The spec's score formula (spec §4.1 step B):
`scores = (Q · Kᵗ) / sqrt(d_k)` per batch and head. -/
def specScores {h dk batch t1 t2 : ℕ} (L : AdpHeadedAttention h dk)
    (query : Fin batch → Fin t1 → Fin (h * dk) → ℝ)
    (key : Fin batch → Fin t2 → Fin (h * dk) → ℝ) (jq jk : ℝ)
    (b : Fin batch) (hd : Fin h) (u : Fin t1) (w : Fin t2) : ℝ :=
  (∑ i, specQ L query jq b hd u i * specK L key jk b hd w i)
    / Real.sqrt (dk : ℝ)

/-- C5: the pre-softmax scores computed by `forward`
(`matmul(q, k.transpose(-2,-1)) / sqrt(d_k)`, the value fed to
`forward_attention`) equal the spec's formula `(Q·Kᵗ)/sqrt(d_k)` where `Q`
and `K` are exactly the gated, row-normalised projections returned by
`forward_qkv` (shape `(batch, n_head, time1, time2)` is enforced by the
index types). -/
theorem C5_scores {h dk batch t1 t2 : ℕ} (L : AdpHeadedAttention h dk)
    (query : Fin batch → Fin t1 → Fin (h * dk) → ℝ)
    (key : Fin batch → Fin t2 → Fin (h * dk) → ℝ)
    (value : Fin batch → Fin t2 → Fin (h * dk) → ℝ) (jq jk : ℝ) :
    scoresOf L query key jq jk = specScores L query key jq jk ∧
    (forward_qkv L query key value jq jk).1 = specQ L query jq ∧
    (forward_qkv L query key value jq jk).2.1 = specK L key jk ∧
    (∀ b hd u w, scoresOf L query key jq jk b hd u w =
      (∑ i, (forward_qkv L query key value jq jk).1 b hd u i *
        (forward_qkv L query key value jq jk).2.1 b hd w i)
        / Real.sqrt (dk : ℝ)) :=
  ⟨rfl, rfl, rfl, fun _ _ _ _ => rfl⟩

/-! ### Claim about the jitter (C6) -/

/-- Concrete layer whose query weight matrix is all zeros (so the query row
norm is exactly `0`): used to exhibit a division by exactly zero when the
jitter draw is `0`. -/
def C6L : AdpHeadedAttention 1 1 where
  linear_q_w := fun _ _ => 0
  linear_q_b := fun _ => 0
  linear_k_w := fun _ _ => 0
  linear_k_b := fun _ => 0
  linear_v_w := fun _ _ => 0
  linear_v_b := fun _ => 0
  linear_out_w := fun _ _ => 0
  linear_out_b := fun _ => 0
  a_q := fun _ => 1
  attn := none
  dropout_rate := 0

/-- C6 counterexample: `random.random()` ranges over `[0, 1)`, so the draw
`r = 0` is admissible; the resulting jitter is exactly `0` (not strictly
positive), and with an all-zero weight row the normalisation denominator
`norm_qq` is then exactly `0`, so the division by exact zero is not
prevented. -/
theorem C6_counterexample :
    (0 : ℝ) ≤ 0 ∧ (0 : ℝ) < 1 ∧ jitter 0 = 0 ∧ ¬ (0 < jitter 0) ∧
    normQQ C6L (jitter 0) 0 = 0 := by
  have hj : jitter 0 = 0 := by simp [jitter]
  refine ⟨le_rfl, by norm_num, hj, by rw [hj]; exact lt_irrefl 0, ?_⟩
  rw [hj]
  simp [normQQ, rowNorm, C6L]

/-- C6 (amended): each jitter value lies in `[0, 1e-10)` (it may be exactly
`0`, since `random.random()` may return `0.0`); whenever the drawn jitter is
strictly positive — or the corresponding weight row is nonzero — the
normalisation denominators `norm_qq`/`norm_kk` are nonzero, so no division
by exact zero occurs. -/
theorem C6_jitter_range {h dk : ℕ} (L : AdpHeadedAttention h dk) (r : ℝ)
    (hr0 : 0 ≤ r) (hr1 : r < 1) (i : Fin (h * dk)) :
    0 ≤ jitter r ∧ jitter r < 1e-10 ∧
    (0 < jitter r → normQQ L (jitter r) i ≠ 0 ∧ normKK L (jitter r) i ≠ 0) ∧
    (rowNorm L.linear_q_w i ≠ 0 → normQQ L (jitter r) i ≠ 0) ∧
    (rowNorm L.linear_k_w i ≠ 0 → normKK L (jitter r) i ≠ 0) := by
  have hsq : 0 ≤ rowNorm L.linear_q_w i := Real.sqrt_nonneg _
  have hsk : 0 ≤ rowNorm L.linear_k_w i := Real.sqrt_nonneg _
  have hjnn : 0 ≤ jitter r := mul_nonneg hr0 (by norm_num)
  refine ⟨hjnn, ?_, fun hj => ⟨?_, ?_⟩, fun hq => ?_, fun hk => ?_⟩
  · unfold jitter
    nlinarith
  · exact ne_of_gt (add_pos_of_nonneg_of_pos hsq hj)
  · exact ne_of_gt (add_pos_of_nonneg_of_pos hsk hj)
  · exact ne_of_gt (add_pos_of_pos_of_nonneg
      (lt_of_le_of_ne hsq (Ne.symm hq)) hjnn)
  · exact ne_of_gt (add_pos_of_pos_of_nonneg
      (lt_of_le_of_ne hsk (Ne.symm hk)) hjnn)

theorem C6_jitter_range_witness :
    0 ≤ (1/2 : ℝ) ∧ (1/2 : ℝ) < 1 ∧ 0 < jitter (1/2) ∧
    normQQ C6L (jitter (1/2)) 0 ≠ 0 := by
  have h0 : 0 ≤ (1/2 : ℝ) := by norm_num
  have h1 : (1/2 : ℝ) < 1 := by norm_num
  have hj : 0 < jitter (1/2) := by unfold jitter; norm_num
  exact ⟨h0, h1, hj, ((C6_jitter_range C6L (1/2) h0 h1 0).2.2.1 hj).1⟩

/-! ### Frame claim (C9) -/

/-- C9: a call to `forward` (with its state effect) leaves every layer
parameter — the four weight matrices and biases and the gate `a_q` — and the
stored dropout rate unchanged (the hyperparameters `h` and `d_k` are type
indices here, so they cannot change); the only state written is `self.attn`,
which is assigned the freshly computed attention map on every call, on both
the masked (`mask = some m`) and unmasked (`mask = none`) paths; the
returned value is the `forward` output triple. -/
theorem C9_frame {h dk batch t1 t2 : ℕ} (L : AdpHeadedAttention h dk)
    (query : Fin batch → Fin t1 → Fin (h * dk) → ℝ)
    (key : Fin batch → Fin t2 → Fin (h * dk) → ℝ)
    (value : Fin batch → Fin t2 → Fin (h * dk) → ℝ)
    (mask : Option (Fin batch → Fin t1 → Fin t2 → ℕ)) (jq jk : ℝ)
    (drop : Fin batch → Fin h → Fin t1 → Fin t2 → ℝ) :
    (forwardState L query key value mask jq jk drop).1.linear_q_w
        = L.linear_q_w ∧
    (forwardState L query key value mask jq jk drop).1.linear_q_b
        = L.linear_q_b ∧
    (forwardState L query key value mask jq jk drop).1.linear_k_w
        = L.linear_k_w ∧
    (forwardState L query key value mask jq jk drop).1.linear_k_b
        = L.linear_k_b ∧
    (forwardState L query key value mask jq jk drop).1.linear_v_w
        = L.linear_v_w ∧
    (forwardState L query key value mask jq jk drop).1.linear_v_b
        = L.linear_v_b ∧
    (forwardState L query key value mask jq jk drop).1.linear_out_w
        = L.linear_out_w ∧
    (forwardState L query key value mask jq jk drop).1.linear_out_b
        = L.linear_out_b ∧
    (forwardState L query key value mask jq jk drop).1.a_q = L.a_q ∧
    (forwardState L query key value mask jq jk drop).1.dropout_rate
        = L.dropout_rate ∧
    (forwardState L query key value mask jq jk drop).1.attn
        = some ⟨batch, t1, t2, attnOf L query key mask jq jk⟩ ∧
    (forwardState L query key value mask jq jk drop).2
        = forward L query key value mask jq jk drop :=
  ⟨rfl, rfl, rfl, rfl, rfl, rfl, rfl, rfl, rfl, rfl, rfl, rfl⟩

/-! ### Masking claim (C1) -/

/-- If the value tensors agree on every row whose attention weight for query
row `(b, u)` is not masked away, the output row `(b, u)` agrees. -/
theorem outputOf_value_congr {h dk batch t1 t2 : ℕ} (L : AdpHeadedAttention h dk)
    (query : Fin batch → Fin t1 → Fin (h * dk) → ℝ)
    (key : Fin batch → Fin t2 → Fin (h * dk) → ℝ)
    (value value' : Fin batch → Fin t2 → Fin (h * dk) → ℝ)
    (m : Fin batch → Fin t1 → Fin t2 → ℕ) (jq jk : ℝ)
    (b : Fin batch) (u : Fin t1)
    (hval : ∀ w : Fin t2, m b u w ≠ 0 → ∀ f2, value' b w f2 = value b w f2) :
    outputOf L query key value' (some m) jq jk noDrop b u
      = outputOf L query key value (some m) jq jk noDrop b u := by
  funext o
  unfold outputOf
  have hX : (fun f => ∑ w,
      noDrop b (headIdx f) u w
        * attnOf L query key (some m) jq jk b (headIdx f) u w
        * vHead L value' b (headIdx f) w (subIdx f)) = (fun f => ∑ w,
      noDrop b (headIdx f) u w
        * attnOf L query key (some m) jq jk b (headIdx f) u w
        * vHead L value b (headIdx f) w (subIdx f)) := by
    funext f
    apply Finset.sum_congr rfl
    intro w _
    by_cases hw : m b u w = 0
    · have hz : attnOf L query key (some m) jq jk b (headIdx f) u w = 0 := by
        simp [attnOf, hw]
      rw [hz]
      ring
    · have hv : value' b w = value b w := funext (hval w hw)
      have hvh : vHead L value' b (headIdx f) w (subIdx f)
          = vHead L value b (headIdx f) w (subIdx f) := by
        unfold vHead vFlat linApply
        rw [hv]
      rw [hvh]
  rw [hX]

/-- C1 (amended): with a mask, (i) the attention-weight tensor produced by
`forward_attention` before dropout (the tensor stored on the layer) is
exactly `0` at every masked position; (ii) if position `(b, u, w0)` is
masked then, with dropout disabled, the output row `(b, u)` is unchanged
under any perturbation of the value row `(b, w0)`; and (iii) if the value
row `(b, w0)` is masked at every query position (as with a
`(batch, 1, time2)`-shaped mask), the entire forward output is unchanged
under any perturbation of that value row. -/
theorem C1_masking {h dk batch t1 t2 : ℕ} (L : AdpHeadedAttention h dk)
    (query : Fin batch → Fin t1 → Fin (h * dk) → ℝ)
    (key : Fin batch → Fin t2 → Fin (h * dk) → ℝ)
    (value value' : Fin batch → Fin t2 → Fin (h * dk) → ℝ)
    (m : Fin batch → Fin t1 → Fin t2 → ℕ) (jq jk : ℝ) :
    (∀ b hd u w, m b u w = 0 →
      attnOf L query key (some m) jq jk b hd u w = 0) ∧
    (∀ b u w0, m b u w0 = 0 →
      (∀ b2 w2 f2, ¬(b2 = b ∧ w2 = w0) → value' b2 w2 f2 = value b2 w2 f2) →
      (forward L query key value' (some m) jq jk noDrop).1 b u
        = (forward L query key value (some m) jq jk noDrop).1 b u) ∧
    (∀ b w0, (∀ u, m b u w0 = 0) →
      (∀ b2 w2 f2, ¬(b2 = b ∧ w2 = w0) → value' b2 w2 f2 = value b2 w2 f2) →
      (forward L query key value' (some m) jq jk noDrop).1
        = (forward L query key value (some m) jq jk noDrop).1) := by
  refine ⟨?_, ?_, ?_⟩
  · intro b hd u w hw
    simp [attnOf, hw]
  · intro b u w0 hw0 hv
    refine outputOf_value_congr L query key value value' m jq jk b u ?_
    intro w hw f2
    refine hv b w f2 ?_
    rintro ⟨-, rfl⟩
    exact hw hw0
  · intro b w0 hw0 hv
    funext b2 u
    by_cases hb : b2 = b
    · subst hb
      refine outputOf_value_congr L query key value value' m jq jk b2 u ?_
      intro w hw f2
      refine hv b2 w f2 ?_
      rintro ⟨-, rfl⟩
      exact hw (hw0 u)
    · refine outputOf_value_congr L query key value value' m jq jk b2 u ?_
      intro w _ f2
      refine hv b2 w f2 ?_
      rintro ⟨rfl, -⟩
      exact hb rfl

/-- Concrete layer for the C1 and C8 analysis: `n_head = 1`, `feature = 1`,
identity-like weights (all-ones weight matrices, zero biases), `a_q = 1`. -/
def C1L : AdpHeadedAttention 1 1 where
  linear_q_w := fun _ _ => 1
  linear_q_b := fun _ => 0
  linear_k_w := fun _ _ => 1
  linear_k_b := fun _ => 0
  linear_v_w := fun _ _ => 1
  linear_v_b := fun _ => 0
  linear_out_w := fun _ _ => 1
  linear_out_b := fun _ => 0
  a_q := fun _ => 1
  attn := none
  dropout_rate := 0

def C1q : Fin 1 → Fin 2 → Fin (1 * 1) → ℝ := fun _ _ _ => 0

def C1k : Fin 1 → Fin 2 → Fin (1 * 1) → ℝ := fun _ _ _ => 0

def C1v : Fin 1 → Fin 2 → Fin (1 * 1) → ℝ :=
  fun _ w _ => if w.val = 1 then 1 else 0

def C1v' : Fin 1 → Fin 2 → Fin (1 * 1) → ℝ :=
  fun _ w _ => if w.val = 1 then 3 else 0

/-- A mask that masks only position `(u, w) = (0, 1)`: it varies along the
query-time axis, i.e. it has the `(batch, time1, time2)` shape. -/
def C1m : Fin 1 → Fin 2 → Fin 2 → ℕ :=
  fun _ u w => if u.val = 0 ∧ w.val = 1 then 0 else 1

theorem C1L_gate : aqfV C1L.a_q = C1L.a_q := by
  funext j
  have hM : linfNorm C1L.a_q = 1 := by
    have h0 : |C1L.a_q 0| = 1 := by simp [C1L]
    rw [linfNorm_eq_of C1L.a_q 0 (fun i => by simp [C1L]), h0]
  have hgt : |C1L.a_q j| > 0.001 * linfNorm C1L.a_q := by
    rw [hM]
    simp [C1L]
    norm_num
  simp [aqfV, gateMask, hgt]

theorem C1_qHead_zero (b : Fin 1) (hd : Fin 1) (u : Fin 2) (i : Fin 1) :
    qHead C1L C1q 0 b hd u i = 0 := by
  simp [qHead, qFlat, linApply, C1q, C1L]

theorem C1_scores_zero (b : Fin 1) (hd : Fin 1) (u : Fin 2) (w : Fin 2) :
    scoresOf C1L C1q C1k 0 0 b hd u w = 0 := by
  unfold scoresOf
  rw [Finset.sum_eq_zero]
  · simp
  · intro i _
    rw [C1_qHead_zero]
    ring

theorem C1_attn_row1 (hd : Fin 1) (w : Fin 2) :
    attnOf C1L C1q C1k (some C1m) 0 0 0 hd 1 w = 1 / 2 := by
  have hm1 : ∀ w2 : Fin 2, C1m 0 1 w2 = 1 := by decide
  have hne : C1m 0 1 w ≠ 0 := by rw [hm1 w]; exact one_ne_zero
  show (if C1m 0 1 w = 0 then 0 else softmax
    (fun w2 => if C1m 0 1 w2 = 0 then finfoMin
      else scoresOf C1L C1q C1k 0 0 0 hd 1 w2) w) = 1 / 2
  rw [if_neg hne]
  have hfun : (fun w2 => if C1m 0 1 w2 = 0 then finfoMin
      else scoresOf C1L C1q C1k 0 0 0 hd 1 w2) = fun _ => (0 : ℝ) := by
    funext w2
    rw [if_neg (by rw [hm1 w2]; exact one_ne_zero), C1_scores_zero]
  rw [hfun]
  unfold softmax
  rw [Real.exp_zero, Fin.sum_univ_two, Real.exp_zero]
  norm_num

theorem C1_vHead (v1 : ℝ) (b : Fin 1) (hd : Fin 1) (w : Fin 2) (i : Fin 1) :
    vHead C1L (fun _ w2 _ => if w2.val = 1 then v1 else 0) b hd w i
      = if w.val = 1 then v1 else 0 := by
  unfold vHead vFlat linApply
  rw [Fin.sum_univ_one]
  simp [C1L]

theorem C1_output_row1 (v1 : ℝ) :
    outputOf C1L C1q C1k (fun _ w2 _ => if w2.val = 1 then v1 else 0)
      (some C1m) 0 0 noDrop 0 1 0 = v1 / 2 := by
  unfold outputOf linApply
  rw [Fin.sum_univ_one]
  have h1 : C1L.linear_out_w 0 0 = 1 := rfl
  have h2 : C1L.linear_out_b 0 = 0 := rfl
  rw [h1, h2]
  simp only [Fin.sum_univ_two, C1_attn_row1, C1_vHead, noDrop,
    Fin.val_zero, Fin.val_one]
  norm_num
  ring

/-- C1 counterexample: with the `(batch, time1, time2)`-shaped mask `C1m`
that masks only position `(u, w) = (0, 1)`, perturbing the value row
`(b, w) = (0, 1)` — the row at the masked position — changes the forward
output (at the unmasked query row `u = 1`), refuting the claim that the
output is unchanged under any perturbation of the value row at a masked
position for every call with a mask. -/
theorem C1_counterexample :
    C1m 0 0 1 = 0 ∧
    (∀ (b2 : Fin 1) (w2 : Fin 2) (f2 : Fin (1 * 1)),
      ¬(b2 = (0 : Fin 1) ∧ w2 = (1 : Fin 2)) → C1v' b2 w2 f2 = C1v b2 w2 f2) ∧
    (forward C1L C1q C1k C1v' (some C1m) 0 0 noDrop).1
      ≠ (forward C1L C1q C1k C1v (some C1m) 0 0 noDrop).1 := by
  refine ⟨by decide, ?_, ?_⟩
  · intro b2 w2 f2 hne
    fin_cases w2
    · simp [C1v, C1v']
    · exact absurd ⟨Subsingleton.elim (α := Fin 1) b2 0, rfl⟩ hne
  · intro heq
    have h := congrFun (congrFun (congrFun heq (0 : Fin 1)) (1 : Fin 2))
      (0 : Fin (1 * 1))
    have e1 : (forward C1L C1q C1k C1v' (some C1m) 0 0 noDrop).1 0 1 0
        = 3 / 2 := C1_output_row1 3
    have e2 : (forward C1L C1q C1k C1v (some C1m) 0 0 noDrop).1 0 1 0
        = 1 / 2 := C1_output_row1 1
    rw [e1, e2] at h
    norm_num at h

theorem C1_masking_witness :
    C1m 0 0 1 = 0 ∧
    attnOf C1L C1q C1k (some C1m) 0 0 0 0 0 1 = 0 ∧
    (forward C1L C1q C1k C1v (some C1m) 0 0 noDrop).1 0 0
      = (forward C1L C1q C1k C1v (some C1m) 0 0 noDrop).1 0 0 := by
  have hm : C1m 0 0 1 = 0 := by decide
  refine ⟨hm, (C1_masking C1L C1q C1k C1v C1v C1m 0 0).1 0 0 0 1 hm, ?_⟩
  exact (C1_masking C1L C1q C1k C1v C1v C1m 0 0).2.1 0 0 1 hm
    (fun _ _ _ _ => rfl)

/-! ### Row-scaling claim (C7) -/

/-- Multiply row `i0` of a weight matrix by `c`, leaving other rows alone. -/
def scaleRow {m n : ℕ} (W : Fin m → Fin n → ℝ) (i0 : Fin m) (c : ℝ) :
    Fin m → Fin n → ℝ :=
  fun i j => if i = i0 then c * W i j else W i j

/-- `aqfV` of the all-ones gate vector is all ones. -/
theorem aqfV_ones {n : ℕ} (j : Fin n) :
    aqfV (fun _ : Fin n => (1 : ℝ)) j = 1 := by
  have hM : linfNorm (fun _ : Fin n => (1 : ℝ)) = 1 := by
    rw [linfNorm_eq_of _ j (fun i => by norm_num)]
    simp
  unfold aqfV gateMask
  rw [hM, if_pos (by norm_num)]
  norm_num

/-- `forward` is determined by the flat transformed `q`, `k`, the value-side
parameters, the output-side parameters and the gate vector. -/
theorem forward_parts_congr {h dk batch t1 t2 : ℕ}
    (L L' : AdpHeadedAttention h dk)
    (query : Fin batch → Fin t1 → Fin (h * dk) → ℝ)
    (key : Fin batch → Fin t2 → Fin (h * dk) → ℝ)
    (value : Fin batch → Fin t2 → Fin (h * dk) → ℝ)
    (mask : Option (Fin batch → Fin t1 → Fin t2 → ℕ)) (jq jq' jk jk' : ℝ)
    (drop : Fin batch → Fin h → Fin t1 → Fin t2 → ℝ)
    (hq : qFlat L' query jq' = qFlat L query jq)
    (hk : kFlat L' key jk' = kFlat L key jk)
    (hvw : L'.linear_v_w = L.linear_v_w) (hvb : L'.linear_v_b = L.linear_v_b)
    (how : L'.linear_out_w = L.linear_out_w)
    (hob : L'.linear_out_b = L.linear_out_b)
    (ha : L'.a_q = L.a_q) :
    forward L' query key value mask jq' jk' drop
      = forward L query key value mask jq jk drop := by
  have hsc : scoresOf L' query key jq' jk' = scoresOf L query key jq jk := by
    funext b hd u w
    unfold scoresOf qHead kHead
    rw [hq, hk]
  have hat : attnOf L' query key mask jq' jk'
      = attnOf L query key mask jq jk := by
    cases mask with
    | none =>
        funext b hd u w
        simp only [attnOf]
        rw [hsc]
    | some m2 =>
        funext b hd u w
        simp only [attnOf]
        rw [hsc]
  have hvh : vHead L' value = vHead L value := by
    funext b hd w i
    unfold vHead vFlat linApply
    rw [hvw, hvb]
  unfold forward outputOf
  rw [hat, hvh, how, hob, ha]

/-- Scaling row `i0` of `W_q` by `c > 0` leaves the flat gated normalised
query unchanged, provided the query bias at `i0` is zero and the jitter is
zero. -/
theorem qFlat_scaleRow {h dk batch t1 : ℕ} (L : AdpHeadedAttention h dk)
    (query : Fin batch → Fin t1 → Fin (h * dk) → ℝ)
    (i0 : Fin (h * dk)) (c : ℝ) (hc : 0 < c) (hb : L.linear_q_b i0 = 0) :
    qFlat { L with linear_q_w := scaleRow L.linear_q_w i0 c } query 0
      = qFlat L query 0 := by
  funext b t i
  by_cases hi : i = i0
  · subst hi
    unfold qFlat linApply normQQ rowNorm
    simp only [scaleRow, eq_self_iff_true, if_true, hb]
    have h1 : (∑ j, c * L.linear_q_w i j * query b t j)
        = c * ∑ j, L.linear_q_w i j * query b t j := by
      rw [Finset.mul_sum]
      exact Finset.sum_congr rfl (fun j _ => by ring)
    have h2 : (∑ j, (c * L.linear_q_w i j) ^ 2)
        = c ^ 2 * ∑ j, (L.linear_q_w i j) ^ 2 := by
      rw [Finset.mul_sum]
      exact Finset.sum_congr rfl (fun j _ => by ring)
    rw [h1, h2, Real.sqrt_mul (sq_nonneg c), Real.sqrt_sq hc.le]
    simp only [add_zero]
    rcases eq_or_ne (Real.sqrt (∑ j, (L.linear_q_w i j) ^ 2)) 0 with h0 | h0
    · rw [h0, mul_zero, div_zero, div_zero]
    · field_simp
      ring
  · unfold qFlat linApply normQQ rowNorm
    simp only [scaleRow, if_neg hi]

/-- Scaling row `i0` of `W_k` by `c > 0` leaves the flat normalised key
unchanged, provided the key bias at `i0` is zero and the jitter is zero. -/
theorem kFlat_scaleRow {h dk batch t2 : ℕ} (L : AdpHeadedAttention h dk)
    (key : Fin batch → Fin t2 → Fin (h * dk) → ℝ)
    (i0 : Fin (h * dk)) (c : ℝ) (hc : 0 < c) (hb : L.linear_k_b i0 = 0) :
    kFlat { L with linear_k_w := scaleRow L.linear_k_w i0 c } key 0
      = kFlat L key 0 := by
  funext b t i
  by_cases hi : i = i0
  · subst hi
    unfold kFlat linApply normKK rowNorm
    simp only [scaleRow, eq_self_iff_true, if_true, hb]
    have h1 : (∑ j, c * L.linear_k_w i j * key b t j)
        = c * ∑ j, L.linear_k_w i j * key b t j := by
      rw [Finset.mul_sum]
      exact Finset.sum_congr rfl (fun j _ => by ring)
    have h2 : (∑ j, (c * L.linear_k_w i j) ^ 2)
        = c ^ 2 * ∑ j, (L.linear_k_w i j) ^ 2 := by
      rw [Finset.mul_sum]
      exact Finset.sum_congr rfl (fun j _ => by ring)
    rw [h1, h2, Real.sqrt_mul (sq_nonneg c), Real.sqrt_sq hc.le]
    simp only [add_zero]
    rcases eq_or_ne (Real.sqrt (∑ j, (L.linear_k_w i j) ^ 2)) 0 with h0 | h0
    · rw [h0, mul_zero, div_zero, div_zero]
    · field_simp
      ring
  · unfold kFlat linApply normKK rowNorm
    simp only [scaleRow, if_neg hi]

/-- C7 (amended): scaling row `i0` of `W_q` (resp. `W_k`) by `c > 0` leaves
the normalised projection `Q` (resp. `K`) — and hence the whole forward
output — unchanged, provided the corresponding bias entry is zero and the
jitter on that side is zero; with a nonzero bias the invariance fails (see
the counterexample). -/
theorem C7_row_scaling {h dk batch t1 t2 : ℕ} (L : AdpHeadedAttention h dk)
    (query : Fin batch → Fin t1 → Fin (h * dk) → ℝ)
    (key : Fin batch → Fin t2 → Fin (h * dk) → ℝ)
    (value : Fin batch → Fin t2 → Fin (h * dk) → ℝ)
    (mask : Option (Fin batch → Fin t1 → Fin t2 → ℕ)) (jq jk : ℝ)
    (drop : Fin batch → Fin h → Fin t1 → Fin t2 → ℝ)
    (i0 : Fin (h * dk)) (c : ℝ) (hc : 0 < c) :
    (L.linear_q_b i0 = 0 →
      qHead { L with linear_q_w := scaleRow L.linear_q_w i0 c } query 0
        = qHead L query 0 ∧
      forward { L with linear_q_w := scaleRow L.linear_q_w i0 c }
          query key value mask 0 jk drop
        = forward L query key value mask 0 jk drop) ∧
    (L.linear_k_b i0 = 0 →
      kHead { L with linear_k_w := scaleRow L.linear_k_w i0 c } key 0
        = kHead L key 0 ∧
      forward { L with linear_k_w := scaleRow L.linear_k_w i0 c }
          query key value mask jq 0 drop
        = forward L query key value mask jq 0 drop) := by
  constructor
  · intro hb
    have hq := qFlat_scaleRow L query i0 c hc hb
    constructor
    · funext b hd u i
      unfold qHead
      rw [hq]
    · exact forward_parts_congr L
        { L with linear_q_w := scaleRow L.linear_q_w i0 c }
        query key value mask 0 0 jk jk drop hq rfl rfl rfl rfl rfl rfl
  · intro hb
    have hk := kFlat_scaleRow L key i0 c hc hb
    constructor
    · funext b hd u i
      unfold kHead
      rw [hk]
    · exact forward_parts_congr L
        { L with linear_k_w := scaleRow L.linear_k_w i0 c }
        query key value mask jq jq 0 0 drop rfl hk rfl rfl rfl rfl rfl

/-- Concrete layer for the C7 counterexample: like `C1L` but with a nonzero
query bias (`b_q = 1`). -/
def C7L : AdpHeadedAttention 1 1 where
  linear_q_w := fun _ _ => 1
  linear_q_b := fun _ => 1
  linear_k_w := fun _ _ => 1
  linear_k_b := fun _ => 0
  linear_v_w := fun _ _ => 1
  linear_v_b := fun _ => 0
  linear_out_w := fun _ _ => 1
  linear_out_b := fun _ => 0
  a_q := fun _ => 1
  attn := none
  dropout_rate := 0

def C7q : Fin 1 → Fin 1 → Fin (1 * 1) → ℝ := fun _ _ _ => 1

/-- C7 counterexample: with a nonzero query bias, multiplying the (single)
row of `W_q` by `c = 2 > 0` changes the normalised query `Q` (the original
gives `2`, the scaled weights give `3/2`), so the claimed scale-insensitivity
fails on the code as written (the bias is not scaled but the row norm is). -/
theorem C7_counterexample :
    (0 : ℝ) < 2 ∧
    qHead { C7L with linear_q_w := scaleRow C7L.linear_q_w 0 2 } C7q 0
        0 0 0 0
      ≠ qHead C7L C7q 0 0 0 0 0 := by
  have hgate : aqfV C7L.a_q (flatIdx (0 : Fin 1) (0 : Fin 1)) = 1 := by
    rw [show C7L.a_q = (fun _ : Fin (1 * 1) => (1 : ℝ)) from rfl]
    exact aqfV_ones _
  have hW : scaleRow C7L.linear_q_w 0 2 = fun _ _ => (2 : ℝ) := by
    funext i j
    have hi : i = 0 := Fin.ext (by omega)
    subst hi
    unfold scaleRow
    rw [if_pos rfl]
    norm_num [C7L]
  have e1 : qHead { C7L with linear_q_w := scaleRow C7L.linear_q_w 0 2 }
      C7q 0 0 0 0 0 = 3 / 2 := by
    unfold qHead qFlat linApply normQQ rowNorm
    rw [hgate, hW]
    simp [C7q, C7L]
    norm_num
  have e2 : qHead C7L C7q 0 0 0 0 0 = 2 := by
    unfold qHead qFlat linApply normQQ rowNorm
    rw [hgate]
    simp [C7q, C7L]
    norm_num
  refine ⟨by norm_num, ?_⟩
  rw [e1, e2]
  norm_num

theorem C7_row_scaling_witness :
    (0 : ℝ) < 2 ∧ C1L.linear_q_b 0 = 0 ∧
    forward { C1L with linear_q_w := scaleRow C1L.linear_q_w 0 2 }
        C1q C1k C1v none 0 0 noDrop
      = forward C1L C1q C1k C1v none 0 0 noDrop := by
  refine ⟨by norm_num, rfl, ?_⟩
  exact ((C7_row_scaling C1L C1q C1k C1v none 0 0 noDrop 0 2
    (by norm_num)).1 rfl).2

/-! ### Determinism-modulo-jitter claim (C8) -/

/-- Concrete layer for the C8 counterexample: the single query weight is
`1e-12` (a row whose L2 norm is comparable to the jitter magnitude); all
other weights are identity-like. -/
def C8L : AdpHeadedAttention 1 1 where
  linear_q_w := fun _ _ => 1e-12
  linear_q_b := fun _ => 0
  linear_k_w := fun _ _ => 1
  linear_k_b := fun _ => 0
  linear_v_w := fun _ _ => 1
  linear_v_b := fun _ => 0
  linear_out_w := fun _ _ => 1
  linear_out_b := fun _ => 0
  a_q := fun _ => 1
  attn := none
  dropout_rate := 0

def C8q : Fin 1 → Fin 1 → Fin (1 * 1) → ℝ := fun _ _ _ => 1

def C8k : Fin 1 → Fin 2 → Fin (1 * 1) → ℝ :=
  fun _ w _ => if w.val = 0 then 1 else 0

def C8v : Fin 1 → Fin 2 → Fin (1 * 1) → ℝ :=
  fun _ w _ => if w.val = 0 then 1 else 0

theorem C8_gate : aqfV C8L.a_q (flatIdx (0 : Fin 1) (0 : Fin 1)) = 1 := by
  rw [show C8L.a_q = (fun _ : Fin (1 * 1) => (1 : ℝ)) from rfl]
  exact aqfV_ones _

theorem C8_rowNorm_q : rowNorm C8L.linear_q_w (flatIdx 0 0) = 1e-12 := by
  unfold rowNorm
  rw [show (∑ j : Fin (1 * 1), (C8L.linear_q_w (flatIdx 0 0) j) ^ 2)
    = ((1e-12 : ℝ)) ^ 2 from by simp [C8L]]
  exact Real.sqrt_sq (by norm_num)

theorem C8_rowNorm_k : rowNorm C8L.linear_k_w (flatIdx 0 0) = 1 := by
  unfold rowNorm
  rw [show (∑ j : Fin (1 * 1), (C8L.linear_k_w (flatIdx 0 0) j) ^ 2)
    = ((1 : ℝ)) ^ 2 from by simp [C8L]]
  exact Real.sqrt_sq (by norm_num)

theorem C8_qHead (jq : ℝ) :
    qHead C8L C8q jq 0 0 0 0 = 1e-12 / (1e-12 + jq) := by
  unfold qHead qFlat linApply normQQ
  rw [C8_gate, C8_rowNorm_q]
  simp [C8q, C8L]

theorem C8_kHead (w : Fin 2) :
    kHead C8L C8k 0 0 0 w 0 = if w.val = 0 then 1 else 0 := by
  unfold kHead kFlat linApply normKK
  rw [C8_rowNorm_k]
  simp [C8k, C8L]

theorem C8_scores (jq : ℝ) (w : Fin 2) :
    scoresOf C8L C8q C8k jq 0 0 0 0 w
      = if w.val = 0 then 1e-12 / (1e-12 + jq) else 0 := by
  unfold scoresOf
  rw [Fin.sum_univ_one, C8_qHead, C8_kHead]
  rw [Nat.cast_one, Real.sqrt_one]
  by_cases hw : w.val = 0
  · simp [hw]
  · simp [hw]

theorem C8_attn (jq : ℝ) :
    attnOf C8L C8q C8k none jq 0 0 0 0 0
      = Real.exp (1e-12 / (1e-12 + jq))
        / (Real.exp (1e-12 / (1e-12 + jq)) + 1) := by
  show softmax (fun w2 => scoresOf C8L C8q C8k jq 0 0 0 0 w2) 0 = _
  rw [show (fun w2 => scoresOf C8L C8q C8k jq 0 0 0 0 w2)
    = fun w2 : Fin 2 => if w2.val = 0 then 1e-12 / (1e-12 + jq) else 0
    from funext (C8_scores jq)]
  unfold softmax
  rw [Fin.sum_univ_two]
  simp [Real.exp_zero]

theorem C8_vHead (b : Fin 1) (hd : Fin 1) (w : Fin 2) (i : Fin 1) :
    vHead C8L C8v b hd w i = if w.val = 0 then 1 else 0 := by
  unfold vHead vFlat linApply
  rw [Fin.sum_univ_one]
  simp [C8L, C8v]

theorem C8_output (jq : ℝ) :
    (forward C8L C8q C8k C8v none jq 0 noDrop).1 0 0 0
      = attnOf C8L C8q C8k none jq 0 0 0 0 0 := by
  show outputOf C8L C8q C8k C8v none jq 0 noDrop 0 0 0 = _
  unfold outputOf linApply
  rw [Fin.sum_univ_one]
  rw [show C8L.linear_out_w 0 0 = 1 from rfl,
    show C8L.linear_out_b 0 = 0 from rfl]
  simp only [Fin.sum_univ_two, noDrop, C8_vHead, Fin.val_zero, Fin.val_one]
  norm_num
  rw [show headIdx (0 : Fin (1 * 1)) = (0 : Fin 1) from rfl]

/-- The logistic function `x ↦ exp x / (exp x + 1)` is monotone. -/
theorem sigma_mono (a b : ℝ) (hab : a ≤ b) :
    Real.exp a / (Real.exp a + 1) ≤ Real.exp b / (Real.exp b + 1) := by
  have ha : (0 : ℝ) < Real.exp a + 1 := by positivity
  have hb : (0 : ℝ) < Real.exp b + 1 := by positivity
  rw [div_le_div_iff ha hb]
  have hle := Real.exp_le_exp.mpr hab
  nlinarith [Real.exp_pos a, Real.exp_pos b]

theorem sigma_lt_one (a : ℝ) : Real.exp a / (Real.exp a + 1) < 1 := by
  have ha : (0 : ℝ) < Real.exp a + 1 := by positivity
  rw [div_lt_one ha]
  linarith

theorem sigma_pos (a : ℝ) : 0 < Real.exp a / (Real.exp a + 1) := by
  positivity

theorem exp_half_lt : Real.exp (1 / 2) < 1.65 := by
  have hs : Real.exp (1 / 2) * Real.exp (1 / 2) = Real.exp 1 := by
    rw [← Real.exp_add]
    norm_num
  by_contra hge
  push_neg at hge
  have h2 : (1.65 : ℝ) * 1.65 ≤ Real.exp (1 / 2) * Real.exp (1 / 2) :=
    mul_le_mul hge hge (by norm_num) (le_trans (by norm_num) hge)
  rw [hs] at h2
  have := Real.exp_one_lt_d9
  linarith

theorem sigma_one_gt : (0.731 : ℝ) < Real.exp 1 / (Real.exp 1 + 1) := by
  have ha : (0 : ℝ) < Real.exp 1 + 1 := by positivity
  rw [lt_div_iff ha]
  have := Real.exp_one_gt_d9
  nlinarith

theorem sigma_half_lt : Real.exp (1 / 2) / (Real.exp (1 / 2) + 1)
    < 0.623 := by
  have ha : (0 : ℝ) < Real.exp (1 / 2) + 1 := by positivity
  rw [div_lt_iff ha]
  have := exp_half_lt
  have := Real.exp_pos (1 / 2)
  nlinarith

/-- C8 counterexample: both jitter draws shown are admissible
(`r ∈ [0, 1)`), yet with a weight row of norm `1e-12` the two resulting
outputs are `σ(1)` and `σ(1/100)`, whose difference exceeds `0.1` — far
beyond a `1e-8` relative tolerance. So two calls differing only in the
jitter are *not* guaranteed to agree to `~1e-8` relative error. -/
theorem C8_counterexample :
    (0 : ℝ) ≤ 0 ∧ (0 : ℝ) < 1 ∧ (0 : ℝ) ≤ 0.99 ∧ (0.99 : ℝ) < 1 ∧
    ¬ (|(forward C8L C8q C8k C8v none (jitter 0) 0 noDrop).1 0 0 0
        - (forward C8L C8q C8k C8v none (jitter 0.99) 0 noDrop).1 0 0 0|
      ≤ 1e-8 * max
        |(forward C8L C8q C8k C8v none (jitter 0) 0 noDrop).1 0 0 0|
        |(forward C8L C8q C8k C8v none (jitter 0.99) 0 noDrop).1 0 0 0|) := by
  refine ⟨le_rfl, by norm_num, by norm_num, by norm_num, ?_⟩
  have hj1 : jitter 0 = 0 := by simp [jitter]
  have hj2 : (1e-12 : ℝ) / (1e-12 + jitter 0.99) = 1 / 100 := by
    unfold jitter
    norm_num
  have e1 : (forward C8L C8q C8k C8v none (jitter 0) 0 noDrop).1 0 0 0
      = Real.exp 1 / (Real.exp 1 + 1) := by
    rw [C8_output, C8_attn, hj1]
    norm_num
  have e2 : (forward C8L C8q C8k C8v none (jitter 0.99) 0 noDrop).1 0 0 0
      = Real.exp (1 / 100) / (Real.exp (1 / 100) + 1) := by
    rw [C8_output, C8_attn, hj2]
  rw [e1, e2]
  have h1 := sigma_one_gt
  have h2 : Real.exp (1 / 100) / (Real.exp (1 / 100) + 1)
      ≤ Real.exp (1 / 2) / (Real.exp (1 / 2) + 1) :=
    sigma_mono (1 / 100) (1 / 2) (by norm_num)
  have h3 := sigma_half_lt
  have h4 := sigma_lt_one 1
  have h5 := sigma_pos 1
  have h6 := sigma_pos (1 / 100)
  have h7 := sigma_lt_one (1 / 100)
  intro habs
  have hdiff : Real.exp 1 / (Real.exp 1 + 1)
      - Real.exp (1 / 100) / (Real.exp (1 / 100) + 1)
      ≤ |Real.exp 1 / (Real.exp 1 + 1)
        - Real.exp (1 / 100) / (Real.exp (1 / 100) + 1)| := le_abs_self _
  have hmax : max |Real.exp 1 / (Real.exp 1 + 1)|
      |Real.exp (1 / 100) / (Real.exp (1 / 100) + 1)| ≤ 1 := by
    apply max_le
    · rw [abs_of_pos h5]
      exact le_of_lt h4
    · rw [abs_of_pos h6]
      exact le_of_lt h7
  have hrhs : (1e-8 : ℝ) * max |Real.exp 1 / (Real.exp 1 + 1)|
      |Real.exp (1 / 100) / (Real.exp (1 / 100) + 1)| ≤ 1e-8 * 1 := by
    apply mul_le_mul_of_nonneg_left hmax
    norm_num
  linarith

/-- C8 (amended): with dropout disabled, the forward output is a function of
the inputs, the parameters and the two jitter draws alone — in particular two
*sequential* calls (the second starting from the state the first call left
behind) with identical inputs and identical jitter draws produce identical
outputs. The `~1e-8` relative-tolerance bound for *different* jitter draws
does not hold for all parameter values (see the counterexample); it fails
when a weight row norm is comparable to the jitter magnitude. -/
theorem C8_determinism {h dk batch t1 t2 : ℕ} (L : AdpHeadedAttention h dk)
    (query : Fin batch → Fin t1 → Fin (h * dk) → ℝ)
    (key : Fin batch → Fin t2 → Fin (h * dk) → ℝ)
    (value : Fin batch → Fin t2 → Fin (h * dk) → ℝ)
    (mask : Option (Fin batch → Fin t1 → Fin t2 → ℕ)) (r1 r2 : ℝ)
    (_hr1 : 0 ≤ r1) (_hr2 : r1 < 1) (_hr3 : 0 ≤ r2) (_hr4 : r2 < 1) :
    (forwardState
        ((forwardState L query key value mask (jitter r1) (jitter r2)
          noDrop).1)
        query key value mask (jitter r1) (jitter r2) noDrop).2
      = (forwardState L query key value mask (jitter r1) (jitter r2)
          noDrop).2 :=
  rfl

theorem C8_determinism_witness :
    (0 : ℝ) ≤ 0 ∧ (0 : ℝ) < 1 ∧
    (forwardState
        ((forwardState C8L C8q C8k C8v none (jitter 0) (jitter 0)
          noDrop).1)
        C8q C8k C8v none (jitter 0) (jitter 0) noDrop).2
      = (forwardState C8L C8q C8k C8v none (jitter 0) (jitter 0)
          noDrop).2 :=
  ⟨le_rfl, by norm_num,
    C8_determinism C8L C8q C8k C8v none 0 0 le_rfl (by norm_num) le_rfl
      (by norm_num)⟩

end

end Adp
